import Mathlib

/-!
Shallow embedding of `dx` (main.go / dx.go, final revision): a CLI that lists
and inspects container-runtime objects.  The formatting core (duration, size,
shorteners, port list), the `examine` lookup and the `main` dispatch are
embedded as pure Lean functions; the runtime client, `pflag` and the pager are
external collaborators and appear as explicit inputs.

Go strings are modelled as `List Char` (their decoded code points); Go's
`len(s)`, which counts BYTES, is `goLen` below.  Go slice expressions that can
go out of range are modelled with `Option`: `none` marks a run-time panic.
-/

/-- Byte length of a Go string: the sum of the UTF-8 sizes of its code points
(`len(s)` in Go counts bytes, not runes). -/
def goLen (s : List Char) : Nat := (s.map Char.utf8Size).sum

/-- Model of `strings.ReplaceAll(s, "\n", "␤")`: the pattern is a single code
point, so the replacement is a per-character map. -/
def newlineFix (s : List Char) : List Char :=
  s.map fun c => if c = '\n' then '␤' else c

/-- Model of `shorten` (dx.go): `if len(s) > l { l--; s = first l runes + "…" };
return ReplaceAll(s, "\n", "␤")`.  The guard `len(s) > l` counts BYTES while
the slice `[]rune(s)[:l]` indexes RUNES; a rune index that is negative or
beyond the decoded rune count is a run-time panic, modelled as `none`. -/
def shorten (s : List Char) (l : Int) : Option (List Char) :=
  if l < (goLen s : Int) then
    if 0 ≤ l - 1 ∧ (l - 1).toNat ≤ s.length then
      some (newlineFix (s.take (l - 1).toNat ++ ['…']))
    else none
  else some (newlineFix s)

/-- Model of `shortenMiddle` (dx.go): `if len(s) > l { l--; s = first
l/2+l%2 runes + "…" + []rune(s)[len(s)-l/2:] }; return ReplaceAll(...)`.
Note the tail index mixes `len(s)` (bytes) with a rune-slice position, exactly
as the source does; out-of-range rune indices are `none` (panic). -/
def shortenMiddle (s : List Char) (l : Int) : Option (List Char) :=
  if l < (goLen s : Int) then
    let m := l - 1
    let a := m.toNat / 2 + m.toNat % 2
    let b := m.toNat / 2
    if 0 ≤ m ∧ a ≤ s.length ∧ goLen s - b ≤ s.length then
      some (newlineFix (s.take a ++ ['…'] ++ s.drop (goLen s - b)))
    else none
  else some (newlineFix s)

/-- Model of `prettyDuration` (dx.go, final revision).  The Go code computes
`s := int(duration.Seconds())` (truncation toward zero) and switches on `s`;
the embedding takes that integer second count directly.  Constants as in the
source: `min=60`, `hour=3600`, `day=86400`, `week=604800`, `month=2592000`
(30 days), `year=31536000` (365 days). -/
def prettyDuration (d : Int) : String :=
  if d < 1 then "now"
  else
    let s := d.toNat
    if s < 60 then toString s ++ "s"
    else if s < 3600 then toString (s / 60) ++ "m"
    else if s < 2 * 86400 then toString (s / 3600) ++ "h"
    else if s < 2 * 604800 then toString (s / 86400) ++ "d"
    else if s < 2 * 2592000 then toString (s / 604800) ++ "w"
    else if s < 2 * 31536000 then toString (s / 2592000) ++ "M"
    else toString (s / 31536000) ++ "y"

/-- The duration table as the spec words it (section 4.1): buckets `now`, `s`,
`m`, `h` (below 2 days), `d` (below 2 weeks), then weeks = days/7, months =
days/30, years = days/365, each by integer floor of the elapsed seconds. -/
def prettyDurationSpec (d : Int) : String :=
  if d < 1 then "now"
  else
    let s := d.toNat
    let days := s / 86400
    if s < 60 then toString s ++ "s"
    else if s < 3600 then toString (s / 60) ++ "m"
    else if s < 2 * 86400 then toString (s / 3600) ++ "h"
    else if s < 2 * 604800 then toString days ++ "d"
    else if s < 2 * 2592000 then toString (days / 7) ++ "w"
    else if s < 2 * 31536000 then toString (days / 30) ++ "M"
    else toString (days / 365) ++ "y"

/-- Unit letters of `prettySize`: the Go string constant `"kMGTPE"` indexed by
`int(exp) - 1`. -/
def sizeUnits : List Char := ['k', 'M', 'G', 'T', 'P', 'E']

/-- One-decimal rendering of the exact rational `num / den`, ties to even.
Go's `%.1f` prints exactly this for a `float64` whose value is exactly
`num / den`: `strconv`'s fixed-precision formatting rounds the binary value's
exact decimal expansion to nearest, ties to even.  In `prettySize` below the
divisor is `1024 ^ exp`, a power of two, so the IEEE division is exact and
the double's value is exactly `num / den`. -/
def round1 (num den : Nat) : String :=
  let t := num * 10
  let q := t / den
  let r := t % den
  let q := if den < 2 * r then q + 1
           else if 2 * r < den then q
           else if q % 2 = 0 then q else q + 1
  toString (q / 10) ++ "." ++ toString (q % 10)

/-- The exact floor of the base-1024 logarithm, `Nat.log 1024`: the exponent
of the section 4.2 formula read in exact arithmetic.  The program's
float-computed `int(Log(float64 n) / Log(1024))` agrees with it whenever the
real log quotient is farther from an integer than the library log's sub-ulp
relative error allows flipping the floor; the theorems below apply it to the
program only at such inputs (at 1024 the quotient is `x / x = 1.0`, exact in
IEEE regardless of the log's accuracy). -/
def sizeUnitIdx (n : Nat) : Nat := Nat.log 1024 n

/-- Number of low-order bits a `Nat` carries beyond a 53-bit significand
(0 for `n < 2^53`); the first argument is recursion fuel, 64 covers the int64
range. -/
def floatScale : Nat → Nat → Nat
  | 0, _ => 0
  | fuel + 1, n => if n < 2 ^ 53 then 0 else floatScale fuel (n / 2) + 1

/-- Model of Go's `float64(n)` conversion for a non-negative integer: IEEE
round to nearest, ties to even, at 53 significant bits.  Exact (the identity)
for `n < 2^53`. -/
def fl53 (n : Nat) : Nat :=
  let k := floatScale 64 n
  if k = 0 then n
  else
    let q := n / 2 ^ k
    let r := n % 2 ^ k
    let q := if 2 ^ k < 2 * r then q + 1
             else if 2 * r < 2 ^ k then q
             else if q % 2 = 0 then q else q + 1
    q * 2 ^ k

/-- The section 4.2 size formula in the claim's own exact-arithmetic reading:
bare integer below 1024, otherwise `bytes / 1024 ^ floor(log bytes/log 1024)`
rounded to one decimal with the unit letter from `kMGTPE`.  Reference point
for the float counterexample below. -/
def prettySizeSpec (bytes : Int) : Option String :=
  if bytes < 1024 then some (toString bytes)
  else
    match sizeUnits.get? (sizeUnitIdx bytes.toNat - 1) with
    | some u => some (round1 bytes.toNat (1024 ^ sizeUnitIdx bytes.toNat) ++
        Char.toString u ++ "B")
    | none => none

/-- Model of `prettySize` (dx.go), float pipeline included where it is
determinate: `byts := float64(bytes)` is `fl53` (exact IEEE rounding); the
divisor `math.Pow(1024, exp) = 2^(10 exp)` makes `byts / divisor` an exact
IEEE division, so `%.1f` prints `round1` of the converted value; the exponent
`int(Log(byts)/Log(1024))` is modelled by `sizeUnitIdx` of the converted
value, faithful at every input the theorems below evaluate (see
`sizeUnitIdx`).  `"kMGTPE"[int(exp)-1]` is a byte-string index, a panic
(`none`) when `exp - 1 ≥ 6`. -/
def prettySize (bytes : Int) : Option String :=
  if bytes < 1024 then some (toString bytes)
  else
    match sizeUnits.get? (sizeUnitIdx (fl53 bytes.toNat) - 1) with
    | some u => some (round1 (fl53 bytes.toNat)
        (1024 ^ sizeUnitIdx (fl53 bytes.toNat)) ++ Char.toString u ++ "B")
    | none => none

/-- One entry of a container's network map (collaborator data): the fields
`ips` reads. -/
structure ContainerNetwork where
  IPAddress : String
deriving DecidableEq

/-- `docker.NetworkList` as consumed by `ips`. -/
structure NetworkList where
  Networks : List ContainerNetwork
deriving DecidableEq

/-- Model of `ips` (dx.go): collect the `IPAddress` of every network, in
order. -/
def ips (networklist : NetworkList) : List String :=
  networklist.Networks.map fun cnetwork => cnetwork.IPAddress

/-- The IP cell of a `ps` row: the source writes `ips[0]` with no length
guard, a run-time panic (`none`) when the network list is empty. -/
def psRowIP (networklist : NetworkList) : Option String :=
  (ips networklist)[0]?

/-- `docker.APIPort` as consumed by `ports` (collaborator data); the source
field `Type` is a Lean keyword and is spelled `PortType` here. -/
structure APIPort where
  IP : String
  PublicPort : Int
  PrivatePort : Int
  PortType : String
deriving DecidableEq

/-- Model of `contains` (dx.go): linear scan for string equality. -/
def contains : List String → String → Bool
  | [], _ => false
  | x :: xs, e => if x = e then true else contains xs e

/-- Model of `net.JoinHostPort` (Go stdlib collaborator): bracket the host
when it contains a colon. -/
def joinHostPort (host port : String) : String :=
  if host.data.contains ':' then "[" ++ host ++ "]:" ++ port
  else host ++ ":" ++ port

/-- Loop body of `ports` (dx.go): render one binding's token. -/
def portToken (verbose : Int) (p : APIPort) : String :=
  let pub := toString p.PublicPort
  let priv := toString p.PrivatePort
  let priv := if p.PortType ≠ "tcp" then priv ++ "/" ++ p.PortType else priv
  if p.IP ≠ "" then
    if verbose ≥ 1 then joinHostPort p.IP pub ++ "→" ++ priv
    else pub ++ "→" ++ priv
  else priv

/-- The accumulation loop of `ports` (dx.go): append each rendered token
unless it is empty or already present. -/
def portsAux (verbose : Int) : List APIPort → List String → List String
  | [], lines => lines
  | p :: rest, lines =>
    let line := portToken verbose p
    portsAux verbose rest
      (if line ≠ "" then (if contains lines line then lines else lines ++ [line])
       else lines)

/-- Model of `ports` (dx.go, final revision): render every binding, suppress
duplicate tokens, join with commas. -/
def ports (ps : List APIPort) (verbose : Int) : String :=
  String.intercalate "," (portsAux verbose ps [])

/-- Spec-side dedup (section 4.4 as amended): keep each nonempty token's first
occurrence, preserving order, starting from the already-kept tokens. -/
def dedupInto (lines : List String) : List String → List String
  | [] => lines
  | t :: ts =>
    dedupInto (if t ≠ "" then (if contains lines t then lines else lines ++ [t])
               else lines) ts

/-- First-6-bytes of an ID: `id[:6]` in Go slices bytes and panics (`none`)
when the string is shorter than 6 bytes.  Container/image IDs are ASCII hex,
where the byte cut falls on a character boundary; `byteTakeAux` takes the
characters that fit the byte budget. -/
def byteTakeAux : Nat → List Char → List Char
  | _, [] => []
  | n, c :: cs => if c.utf8Size ≤ n then c :: byteTakeAux (n - c.utf8Size) cs else []

/-- The id cell of a `ps` row: model of `c.ID[:6]` (dx.go line 1046), `none`
on IDs shorter than 6 bytes (run-time slice panic). -/
def sliceID6 (id : List Char) : Option (List Char) :=
  if 6 ≤ goLen id then some (byteTakeAux 6 id) else none

/-- Everything after the first colon: the second part of
`strings.SplitN(id, ":", 2)`. -/
def afterColon : List Char → List Char
  | [] => []
  | c :: cs => if c = ':' then cs else afterColon cs

/-- Model of the algorithm-name strip in `imgs` (dx.go lines 1108-1110):
`idParts := strings.SplitN(i.ID, ":", 2); id := idParts[len(idParts)-1]`. -/
def stripAlgoName (id : List Char) : List Char :=
  if id.contains ':' then afterColon id else id

/-- The id cell of an `imgs` row: strip the algorithm name, then `id[:6]`
(dx.go line 1112), `none` on stripped IDs shorter than 6 bytes. -/
def imgsIDCell (id : List Char) : Option (List Char) :=
  sliceID6 (stripAlgoName id)

/-- Result of an inspect call (collaborator): the repository distinguishes the
dedicated not-found error (`docker.NoSuchContainer` / `docker.ErrNoSuchImage`)
from every other error. -/
inductive LookupErr where
  | noSuch
  | other (msg : String)
deriving DecidableEq

/-- A container record, reduced to the field `examine` reports. -/
structure DockerContainer where
  ID : String
deriving DecidableEq

/-- An image record, reduced to the field `examine` reports. -/
structure DockerImage where
  ID : String
deriving DecidableEq

/-- A volume record, reduced to the field `examine` matches and reports. -/
structure DockerVolume where
  Name : String
deriving DecidableEq

/-- The runtime client as `examine` consumes it (external collaborator with a
fixed query contract). -/
structure ExamineClient where
  inspectContainer : String → Except LookupErr DockerContainer
  inspectImage : String → Except LookupErr DockerImage
  listVolumes : Except String (List DockerVolume)

/-- Observable outcome of `examine`: `found` pretty-prints the full record to
stdout; `multipleVolumes` and `nothingFound` print only a diagnostic line to
stderr; `fatal` is `log.Fatalf` (diagnostic, exit status 1). -/
inductive ExamineResult where
  | fatal (msg : String)
  | found (objType id : String)
  | multipleVolumes (arg : String)
  | nothingFound
deriving DecidableEq

/-- Model of `strings.HasPrefix s pre` (Go stdlib collaborator): `pre` is a
prefix of `s` (bytewise in Go, equivalently on code points). -/
def goHasPrefix (s pre : String) : Bool := pre.data.isPrefixOf s.data

/-- The volume loop of `examine` (dx.go lines 1174-1186): remember the first
name-match; report `multipleVolumes` the moment a second one is seen. -/
def scanVols (arg : String) : List DockerVolume → Option DockerVolume → ExamineResult
  | [], none => .nothingFound
  | [], some vol => .found "volume" vol.Name
  | v :: rest, acc =>
    if goHasPrefix v.Name arg then
      match acc with
      | some _ => .multipleVolumes arg
      | none => scanVols arg rest (some v)
    else scanVols arg rest acc

/-- Model of `examine` (dx.go lines 1145-1189): probe container by ID/name,
then image by ID, then volumes by name prefix. -/
def examine (client : ExamineClient) (arg : String) : ExamineResult :=
  match client.inspectContainer arg with
  | .ok container => .found "container" container.ID
  | .error (.other msg) => .fatal ("InspectContainer: " ++ msg)
  | .error .noSuch =>
    match client.inspectImage arg with
    | .ok img => .found "image" img.ID
    | .error (.other msg) => .fatal ("InspectImage: " ++ msg)
    | .error .noSuch =>
      match client.listVolumes with
      | .error msg => .fatal ("ListVolumes: " ++ msg)
      | .ok vols => scanVols arg vols none

/-- The subcommand list printed when no arguments are given (dx.go lines
948-955; the process then returns normally, status 0). -/
def usageLines : List String :=
  ["subcommands:", "  ps|c|containers", "  i|imgs|images", "  v|vols|volumes",
   "  x|examine|inspect"]

/-- Which subcommand body `main` proceeds into. -/
inductive SubAction where
  | ps
  | imgs
  | vols
  | x
deriving DecidableEq

/-- Observable outcome of `main`'s argument dispatch. -/
inductive MainOutcome where
  | printAndReturn (lines : List String)
  | exitWith (status : Nat) (lines : List String)
  | run (action : SubAction)
  | panicked
deriving DecidableEq

/-- Go's `%q` on the subcommand word, for words needing no escapes. -/
def quoteGo (s : String) : String := "\"" ++ s ++ "\""

/-- Exit status of `log.Fatalf` (Go stdlib collaborator): every fatal
runtime-query failure ends the process with status 1. -/
def fatalExitStatus : Nat := 1

/-- Model of `main`'s dispatch (dx.go lines 948-997).  `argv` is `os.Args`
(program name first); `nargs` is the positional-argument count the `pflag`
flag set (external collaborator) reports after parsing `os.Args[2:]`. -/
def mainRun (argv : List String) (nargs : Nat) : MainOutcome :=
  match argv with
  | [] => .panicked
  | [_] => .printAndReturn usageLines
  | _ :: sub :: _ =>
    if sub = "ps" ∨ sub = "c" ∨ sub = "containers" then
      if 0 < nargs then .exitWith 2 ["Unexpected positional arguments."]
      else .run .ps
    else if sub = "i" ∨ sub = "imgs" ∨ sub = "images" then
      if 0 < nargs then .exitWith 2 ["Unexpected positional arguments."]
      else .run .imgs
    else if sub = "v" ∨ sub = "vols" ∨ sub = "volumes" then
      if 0 < nargs then .exitWith 2 ["Unexpected positional arguments."]
      else .run .vols
    else if sub = "x" ∨ sub = "examine" ∨ sub = "inspect" then
      if nargs ≠ 1 then .exitWith 2 ["Expected 1 ID/name (prefix) to examine."]
      else .run .x
    else .exitWith 2 [quoteGo sub ++ ": unknown subcommand."]


/-- C1: for every elapsed duration (in truncated seconds, negative values from
clock skew included), `prettyDuration` returns exactly the bucket of the
section 4.1 table with the canonical 2-day threshold — sub-second (and
negative) durations give `now`, then floored seconds/minutes/hours, days
below two weeks, weeks (days/7) below two months, months (days/30) below two
years, years (days/365) otherwise — and the boundary inputs 0s, 59s, 60s,
3599s and 3600s render as `now`, `59s`, `1m`, `59m` and `1h`. -/
theorem prettyDuration_buckets :
    (∀ d : Int, prettyDuration d = prettyDurationSpec d) ∧
    prettyDuration (-5) = "now" ∧ prettyDuration 0 = "now" ∧
    prettyDuration 59 = "59s" ∧ prettyDuration 60 = "1m" ∧
    prettyDuration 3599 = "59m" ∧ prettyDuration 3600 = "1h" := by
  refine ⟨fun d => ?_, by decide, by decide, by decide, by decide, by decide,
    by decide⟩
  unfold prettyDuration prettyDurationSpec
  simp only [Nat.div_div_eq_div_mul]

/-- C2: the claim says a `ps` row degrades to a placeholder when the IP
address is unavailable; in the code the IP cell is `ips(c.Networks)[0]` with
no guard, so a container with an empty network list makes `ips` return the
empty slice and the index panics (`none`) instead of rendering a row. -/
theorem ps_ip_empty_panics :
    ips ⟨[]⟩ = [] ∧ psRowIP ⟨[]⟩ = none := by
  exact ⟨rfl, rfl⟩

/-- C3: the claim says both shorteners count Unicode code points, not bytes.
The guard `len(s) > l` counts bytes: the four-character string `aaaé` (five
bytes) at limit 4 is truncated by both shorteners even though its character
count does not exceed the limit, instead of being returned unchanged. -/
theorem shorten_counts_bytes :
    (['a', 'a', 'a', 'é'] : List Char).length = 4 ∧
    goLen ['a', 'a', 'a', 'é'] = 5 ∧
    shorten ['a', 'a', 'a', 'é'] 4 = some ['a', 'a', 'a', '…'] ∧
    shortenMiddle ['a', 'a', 'a', 'é'] 4 = some ['a', 'a', '…'] ∧
    (['a', 'a', 'a', '…'] : List Char) ≠ ['a', 'a', 'a', 'é'] := by
  refine ⟨by decide, by decide, by decide, by decide, by decide⟩

/-- C4: the claim says both shorteners are idempotent at the same width.  They
are not: replacing a newline by the three-byte glyph `␤` pushes the byte
length over the limit, so a second `shorten` truncates (`␤` becomes `␤…`);
and re-truncating a middle-ellipsized string drops its tail because the
second tail index mixes byte and rune counts (`abc…gh` becomes `abc…`). -/
theorem shorten_not_idempotent :
    shorten ['\n'] 2 = some ['␤'] ∧
    shorten ['␤'] 2 = some ['␤', '…'] ∧
    (['␤', '…'] : List Char) ≠ ['␤'] ∧
    shortenMiddle ['a', 'b', 'c', 'd', 'e', 'f', 'g', 'h'] 6 =
      some ['a', 'b', 'c', '…', 'g', 'h'] ∧
    shortenMiddle ['a', 'b', 'c', '…', 'g', 'h'] 6 = some ['a', 'b', 'c', '…'] ∧
    (['a', 'b', 'c', '…'] : List Char) ≠ ['a', 'b', 'c', '…', 'g', 'h'] := by
  refine ⟨by decide, by decide, by decide, by decide, by decide, by decide⟩

/-- C5 (amended): `prettySize` maps 0, 1023, 1024 and 1536 to `0`, `1023`,
`1.0kB` and `1.5kB`; every non-negative count below 1024 is emitted as the
bare integer with no suffix (a float-free branch); from 1024 on the value is
computed through `float64`, whose 53-bit rounding makes counts at or above
`2^53` print the one-decimal rounding of the *converted* count — at
4669332093657730253 the program prints `4.0EB`, not the `4.1EB` of exact
value/divisor arithmetic. -/
theorem prettySize_values :
    prettySize 0 = some "0" ∧ prettySize 1023 = some "1023" ∧
    prettySize 1024 = some "1.0kB" ∧ prettySize 1536 = some "1.5kB" ∧
    (∀ b : Int, 0 ≤ b → b < 1024 → prettySize b = some (toString b)) ∧
    prettySize 4669332093657730253 = some "4.0EB" := by
  have f1024 : fl53 ((1024 : Int).toNat) = 1024 := by decide
  have f1536 : fl53 ((1536 : Int).toNat) = 1536 := by decide
  have f0 : fl53 ((4669332093657730253 : Int).toNat) = 4669332093657730048 := by
    decide
  have l1024 : sizeUnitIdx 1024 = 1 :=
    Nat.log_eq_of_pow_le_of_lt_pow (by norm_num) (by norm_num)
  have l1536 : sizeUnitIdx 1536 = 1 :=
    Nat.log_eq_of_pow_le_of_lt_pow (by norm_num) (by norm_num)
  have l0 : sizeUnitIdx 4669332093657730048 = 6 :=
    Nat.log_eq_of_pow_le_of_lt_pow (by norm_num) (by norm_num)
  refine ⟨rfl, rfl, ?_, ?_, ?_, ?_⟩
  · unfold prettySize
    rw [if_neg (by norm_num), f1024, l1024]
    rfl
  · unfold prettySize
    rw [if_neg (by norm_num), f1536, l1536]
    rfl
  · intro b _ h1
    unfold prettySize
    rw [if_pos h1]
  · unfold prettySize
    rw [if_neg (by norm_num), f0, l0]
    rfl

/-- C5 witness: the bare-integer clause applied at 500. -/
theorem prettySize_values_witness :
    0 ≤ (500 : Int) ∧ (500 : Int) < 1024 ∧
      prettySize 500 = some (toString (500 : Int)) :=
  ⟨by norm_num, by norm_num,
   prettySize_values.2.2.2.2.1 500 (by norm_num) (by norm_num)⟩

/-- C5 counterexample: the original claim demands the one-decimal rounding of
the exact quotient `bytes / 1024 ^ floor(log bytes/log 1024)` for every count
up to the int64 range, but at 4669332093657730253 the program's `float64`
conversion rounds to 4669332093657730048 — across the 4.05 decimal
boundary — so the code prints `4.0EB` where the claimed exact formula gives
`4.1EB`. -/
theorem prettySize_float_counterexample :
    prettySize 4669332093657730253 = some "4.0EB" ∧
    prettySizeSpec 4669332093657730253 = some "4.1EB" ∧
    "4.0EB" ≠ "4.1EB" := by
  have f0 : fl53 ((4669332093657730253 : Int).toNat) = 4669332093657730048 := by
    decide
  have l0 : sizeUnitIdx 4669332093657730048 = 6 :=
    Nat.log_eq_of_pow_le_of_lt_pow (by norm_num) (by norm_num)
  have ls : sizeUnitIdx ((4669332093657730253 : Int).toNat) = 6 :=
    Nat.log_eq_of_pow_le_of_lt_pow (by norm_num) (by norm_num)
  refine ⟨?_, ?_, by decide⟩
  · unfold prettySize
    rw [if_neg (by norm_num), f0, l0]
    rfl
  · unfold prettySizeSpec
    rw [if_neg (by norm_num), ls]
    rfl

/-- The `ports` loop is the dedup of the independently rendered tokens: the
accumulation step and `dedupInto`'s step coincide. -/
theorem portsAux_eq_dedupInto (verbose : Int) (ps : List APIPort) :
    ∀ lines, portsAux verbose ps lines =
      dedupInto lines (ps.map (portToken verbose)) := by
  induction ps with
  | nil => intro lines; rfl
  | cons p rest ih =>
    intro lines
    simp only [portsAux, List.map_cons, dedupInto]
    exact ih _

/-- C7 (amended): `ports` renders one compact token per binding — the internal
port suffixed with `/` and the transport type whenever the transport is not
tcp; `publishedPort→internalPort` when a bind address exists
(`address:publishedPort→internalPort`, joined as host:port, in verbose mode);
just the internal port otherwise — then suppresses tokens whose rendered
string duplicates an earlier one (first occurrence wins, order preserved) and
joins the survivors with commas.  There is no `udp:` prefix. -/
theorem ports_token_dedup_join :
    (∀ ps verbose, ports ps verbose =
      String.intercalate "," (dedupInto [] (ps.map (portToken verbose)))) ∧
    portToken 0 ⟨"0.0.0.0", 53, 53, "udp"⟩ = "53→53/udp" ∧
    portToken 1 ⟨"1.2.3.4", 80, 8080, "tcp"⟩ = "1.2.3.4:80→8080" ∧
    portToken 1 ⟨"::1", 80, 8080, "tcp"⟩ = "[::1]:80→8080" ∧
    portToken 0 ⟨"", 0, 9999, "udp"⟩ = "9999/udp" ∧
    ports [⟨"0.0.0.0", 53, 53, "udp"⟩, ⟨"0.0.0.0", 53, 53, "udp"⟩] 0 =
      "53→53/udp" ∧
    ports [⟨"0.0.0.0", 53, 53, "udp"⟩, ⟨"1.1.1.1", 80, 80, "tcp"⟩] 0 =
      "53→53/udp,80→80" :=
  ⟨fun ps verbose => congrArg (String.intercalate ",")
      (portsAux_eq_dedupInto verbose ps []),
   by decide, by decide, by decide, by decide, by decide, by decide⟩

/-- C7 counterexample: the claim says a non-tcp binding's token is prefixed
with `udp:` and a published udp binding renders `publishedPort→internalPort`;
the code instead renders `53→53/udp` for a published udp binding — the
transport tag is a `/udp` suffix on the internal port, never a prefix. -/
theorem ports_udp_counterexample :
    ports [⟨"0.0.0.0", 53, 53, "udp"⟩] 0 = "53→53/udp" ∧
    "53→53/udp" ≠ "udp:53→53" := by
  exact ⟨by decide, by decide⟩

/-- When no remaining volume name matches, the scan returns whatever the
accumulator dictates: nothing found, or the single match remembered so far. -/
theorem scanVols_of_filter_nil (arg : String) (vols : List DockerVolume)
    (h : vols.filter (fun w => goHasPrefix w.Name arg) = []) :
    ∀ acc, scanVols arg vols acc =
      (match acc with
       | none => ExamineResult.nothingFound
       | some u => ExamineResult.found "volume" u.Name) := by
  induction vols with
  | nil => intro acc; cases acc <;> rfl
  | cons v rest ih =>
    intro acc
    rw [List.filter_cons] at h
    by_cases hv : goHasPrefix v.Name arg
    · simp [hv] at h
    · simp only [hv, Bool.false_eq_true, if_false] at h
      cases acc <;> simp only [scanVols, hv, Bool.false_eq_true, if_false] <;>
        exact ih h _

/-- With a match already remembered, any further match makes the scan report
the ambiguity. -/
theorem scanVols_some_of_filter_pos (arg : String) (vols : List DockerVolume)
    (h : 1 ≤ (vols.filter (fun w => goHasPrefix w.Name arg)).length) :
    ∀ u, scanVols arg vols (some u) = .multipleVolumes arg := by
  induction vols with
  | nil => simp at h
  | cons v rest ih =>
    intro u
    rw [List.filter_cons] at h
    by_cases hv : goHasPrefix v.Name arg
    · simp only [scanVols, hv, if_true]
    · simp only [hv, Bool.false_eq_true, if_false] at h
      simp only [scanVols, hv, Bool.false_eq_true, if_false]
      exact ih h u

/-- Exactly one volume name matches: the scan finds it. -/
theorem scanVols_of_filter_singleton (arg : String) (vols : List DockerVolume)
    (v : DockerVolume)
    (h : vols.filter (fun w => goHasPrefix w.Name arg) = [v]) :
    scanVols arg vols none = .found "volume" v.Name := by
  induction vols with
  | nil => simp at h
  | cons w rest ih =>
    rw [List.filter_cons] at h
    by_cases hw : goHasPrefix w.Name arg
    · simp only [hw, if_true, List.cons.injEq] at h
      obtain ⟨rfl, hrest⟩ := h
      simp only [scanVols, hw, if_true]
      exact scanVols_of_filter_nil arg rest hrest _
    · simp only [hw, Bool.false_eq_true, if_false] at h
      simp only [scanVols, hw, Bool.false_eq_true, if_false]
      exact ih h

/-- Two or more volume names match: the scan reports the ambiguity. -/
theorem scanVols_of_filter_two (arg : String) (vols : List DockerVolume)
    (h : 2 ≤ (vols.filter (fun w => goHasPrefix w.Name arg)).length) :
    scanVols arg vols none = .multipleVolumes arg := by
  induction vols with
  | nil => simp at h
  | cons w rest ih =>
    rw [List.filter_cons] at h
    by_cases hw : goHasPrefix w.Name arg
    · simp only [hw, if_true, List.length_cons] at h
      simp only [scanVols, hw, if_true]
      exact scanVols_some_of_filter_pos arg rest (by omega) w
    · simp only [hw, Bool.false_eq_true, if_false] at h
      simp only [scanVols, hw, Bool.false_eq_true, if_false]
      exact ih h

/-- C8: `examine` probes in the fixed order container by ID/name, then image
by ID, then volumes by name prefix; the first successful lookup wins and is
reported (and pretty-printed) as that object; with more than one volume-name
match it reports the ambiguity and prints nothing else; with no match at all
it reports the distinct no-match message. -/
theorem examine_probe_order :
    (∀ client arg c, client.inspectContainer arg = .ok c →
      examine client arg = .found "container" c.ID) ∧
    (∀ client arg img, client.inspectContainer arg = .error .noSuch →
      client.inspectImage arg = .ok img →
      examine client arg = .found "image" img.ID) ∧
    (∀ client arg vols v, client.inspectContainer arg = .error .noSuch →
      client.inspectImage arg = .error .noSuch →
      client.listVolumes = .ok vols →
      vols.filter (fun w => goHasPrefix w.Name arg) = [v] →
      examine client arg = .found "volume" v.Name) ∧
    (∀ client arg vols, client.inspectContainer arg = .error .noSuch →
      client.inspectImage arg = .error .noSuch →
      client.listVolumes = .ok vols →
      2 ≤ (vols.filter (fun w => goHasPrefix w.Name arg)).length →
      examine client arg = .multipleVolumes arg) ∧
    (∀ client arg vols, client.inspectContainer arg = .error .noSuch →
      client.inspectImage arg = .error .noSuch →
      client.listVolumes = .ok vols →
      vols.filter (fun w => goHasPrefix w.Name arg) = [] →
      examine client arg = .nothingFound) := by
  refine ⟨?_, ?_, ?_, ?_, ?_⟩
  · intro client arg c hc
    simp [examine, hc]
  · intro client arg img hc hi
    simp [examine, hc, hi]
  · intro client arg vols v hc hi hv hf
    simp only [examine, hc, hi, hv]
    exact scanVols_of_filter_singleton arg vols v hf
  · intro client arg vols hc hi hv hf
    simp only [examine, hc, hi, hv]
    exact scanVols_of_filter_two arg vols hf
  · intro client arg vols hc hi hv hf
    simp only [examine, hc, hi, hv]
    exact scanVols_of_filter_nil arg vols hf none

/-- A runtime client with no containers or images and two volumes whose names
share the prefix `data`. -/
def twoVolumeClient : ExamineClient where
  inspectContainer := fun _ => .error .noSuch
  inspectImage := fun _ => .error .noSuch
  listVolumes := .ok [⟨"data1"⟩, ⟨"data2"⟩]

/-- C8 witness: on a prefix matching two volumes and no container or image,
`examine` reports the ambiguous match. -/
theorem examine_probe_order_witness :
    twoVolumeClient.inspectContainer "data" = .error .noSuch ∧
    twoVolumeClient.inspectImage "data" = .error .noSuch ∧
    twoVolumeClient.listVolumes = .ok [⟨"data1"⟩, ⟨"data2"⟩] ∧
    2 ≤ (([⟨"data1"⟩, ⟨"data2"⟩] : List DockerVolume).filter
      (fun w => goHasPrefix w.Name "data")).length ∧
    examine twoVolumeClient "data" = .multipleVolumes "data" :=
  ⟨rfl, rfl, rfl, by decide,
   examine_probe_order.2.2.2.1 twoVolumeClient "data" [⟨"data1"⟩, ⟨"data2"⟩]
     rfl rfl rfl (by decide)⟩

/-- C9 (amended): an unknown subcommand prints a message naming it (not the
subcommand list, which only a bare invocation prints) and exits with status 2;
a wrong positional-argument count for a listing subcommand or for `examine`
prints a diagnostic and exits with status 2; and 2 is distinct from status 1,
the status `log.Fatalf` uses for runtime-query failures. -/
theorem mainRun_usage_errors :
    (∀ prog sub rest nargs,
      sub ∉ ["ps", "c", "containers", "i", "imgs", "images", "v", "vols",
             "volumes", "x", "examine", "inspect"] →
      mainRun (prog :: sub :: rest) nargs =
        .exitWith 2 [quoteGo sub ++ ": unknown subcommand."]) ∧
    (∀ prog rest nargs, 0 < nargs →
      mainRun (prog :: "ps" :: rest) nargs =
        .exitWith 2 ["Unexpected positional arguments."]) ∧
    (∀ prog rest nargs, nargs ≠ 1 →
      mainRun (prog :: "x" :: rest) nargs =
        .exitWith 2 ["Expected 1 ID/name (prefix) to examine."]) ∧
    (∀ prog, mainRun [prog] 0 = .printAndReturn usageLines) ∧
    2 ≠ fatalExitStatus := by
  refine ⟨?_, ?_, ?_, fun prog => rfl, by decide⟩
  · intro prog sub rest nargs h
    simp only [List.mem_cons, List.not_mem_nil, or_false, not_or] at h
    obtain ⟨h1, h2, h3, h4, h5, h6, h7, h8, h9, h10, h11, h12⟩ := h
    simp [mainRun, h1, h2, h3, h4, h5, h6, h7, h8, h9, h10, h11, h12]
  · intro prog rest nargs h
    simp [mainRun, h]
  · intro prog rest nargs h
    simp +decide [mainRun, h]

/-- C9 witness: the unknown subcommand `bogus`, `ps` with two positionals, and
`x` with none. -/
theorem mainRun_usage_errors_witness :
    ("bogus" ∉ ["ps", "c", "containers", "i", "imgs", "images", "v", "vols",
                "volumes", "x", "examine", "inspect"]) ∧
    mainRun ["dx", "bogus"] 0 =
      .exitWith 2 [quoteGo "bogus" ++ ": unknown subcommand."] ∧
    0 < 2 ∧ mainRun ["dx", "ps", "extra"] 2 =
      .exitWith 2 ["Unexpected positional arguments."] ∧
    (0 : Nat) ≠ 1 ∧ mainRun ["dx", "x"] 0 =
      .exitWith 2 ["Expected 1 ID/name (prefix) to examine."] :=
  ⟨by decide, mainRun_usage_errors.1 "dx" "bogus" [] 0 (by decide), by decide,
   mainRun_usage_errors.2.1 "dx" ["extra"] 2 (by decide), by decide,
   mainRun_usage_errors.2.2.1 "dx" [] 0 (by decide)⟩

/-- C9 counterexample: the claim says an unknown subcommand prints the usage
list; the code prints only the one-line unknown-subcommand message — no line
of the subcommand list appears in the output. -/
theorem mainRun_unknown_counterexample :
    mainRun ["dx", "frobnicate"] 0 =
      .exitWith 2 ["\"frobnicate\": unknown subcommand."] ∧
    (usageLines.any
      (fun l => ["\"frobnicate\": unknown subcommand."].contains l)) = false := by
  exact ⟨by decide, by decide⟩

/-- C10: both listings slice IDs to their first 6 bytes with no length guard —
`ps` slices the container ID directly, `imgs` after stripping any
algorithm-name prefix before a colon — so an ID whose (stripped) byte length
is below 6 makes row rendering panic (`none`) instead of printing a row. -/
theorem listing_requires_six_byte_ids :
    (∀ id : List Char, sliceID6 id = none ↔ goLen id < 6) ∧
    (∀ id : List Char, imgsIDCell id = none ↔ goLen (stripAlgoName id) < 6) ∧
    sliceID6 ['a', 'b', 'c'] = none ∧
    imgsIDCell ("sha256:ab12".data) = none ∧
    sliceID6 ("c19da4f1ab".data) = some ("c19da4".data) := by
  have key : ∀ id : List Char, sliceID6 id = none ↔ goLen id < 6 := by
    intro id
    unfold sliceID6
    rcases Nat.lt_or_ge (goLen id) 6 with h | h
    · rw [if_neg (by omega)]
      simp [h]
    · rw [if_pos h]
      simp
      omega
  exact ⟨key, fun id => key _, by decide, by decide, by decide⟩
